import Mathlib

/-!
Verification development for the agent-swarm VM orchestration engine.

The definitions below are a shallow embedding of the TypeScript/Swift
sources of the repository:

* `src/secrets.ts` — encrypted secret storage (AES-256-GCM at rest,
  scoped resolution),
* `src/registry.ts` — the SQLite registry (projects, tasks, env vars),
* `src/cli.ts` — the lifecycle commands (project delete, bulk create,
  stop/start, checkpoint/restore),
* `src/providers/macos-native.ts`, `src/providers/kvm.ts`,
  `src/providers/hyperv.ts`, `src/exec.ts` — the provider variants,
* `src/vm-helper/main.swift` — the macOS helper binary (`stop`, `ip`).

Bytes are modelled as natural numbers below 256.  External effects
(spawned tools, the hypervisors, the clock) are modelled as explicit
parameters holding the outcome of each call, and fallible calls return
`Except`.  Polling loops driven by a wall-clock deadline with a fixed
sleep are modelled by their iteration count (timeout divided by the
sleep interval).
-/

namespace AgentSwarm

/-! ### Base64 (Buffer.concat(...).toString(base64) / Buffer.from(s, base64))

Modelled at the level of 6-bit symbols: values 0..63 stand for the
base64 alphabet symbols and 64 stands for the padding character.  The
mapping from symbols to ASCII characters is a fixed bijection and is
elided. -/

def b64Encode : List Nat → List Nat
  | [] => []
  | [a] => [a / 4, a % 4 * 16, 64, 64]
  | [a, b] => [a / 4, a % 4 * 16 + b / 16, b % 16 * 4, 64]
  | a :: b :: c :: rest =>
      (a / 4) :: (a % 4 * 16 + b / 16) :: (b % 16 * 4 + c / 64) :: (c % 64) :: b64Encode rest

def b64Decode : List Nat → List Nat
  | s0 :: s1 :: s2 :: s3 :: rest =>
      if s2 = 64 then [s0 * 4 + s1 / 16]
      else if s3 = 64 then [s0 * 4 + s1 / 16, s1 % 16 * 16 + s2 / 4]
      else (s0 * 4 + s1 / 16) :: (s1 % 16 * 16 + s2 / 4) :: (s2 % 4 * 64 + s3) :: b64Decode rest
  | _ => []

theorem b64Decode_b64Encode (l : List Nat) (h : ∀ b ∈ l, b < 256) :
    b64Decode (b64Encode l) = l := by
  induction l using b64Encode.induct with
  | case1 => rfl
  | case2 a =>
    simp only [b64Encode, b64Decode, if_pos]
    simp only [List.cons.injEq, and_true]
    omega
  | case3 a b =>
    have hb : b < 256 := h b (by simp)
    have hn1 : ¬ (b % 16 * 4 = 64) := by omega
    simp only [b64Encode, b64Decode, if_neg hn1, if_pos]
    simp only [List.cons.injEq, and_true]
    constructor <;> omega
  | case4 a b c rest ih =>
    have hb : b < 256 := h b (by simp)
    have hc : c < 256 := h c (by simp)
    have hn1 : ¬ (b % 16 * 4 + c / 64 = 64) := by omega
    have hn2 : ¬ (c % 64 = 64) := by omega
    simp only [b64Encode, b64Decode, if_neg hn1, if_neg hn2]
    rw [ih (fun x hx => h x (by simp [hx]))]
    simp only [List.cons.injEq, and_true]
    refine ⟨by omega, by omega, by omega⟩

/-! ### AES-256-GCM (node:crypto createCipheriv / createDecipheriv)

The cipher itself is external to the repository (the node crypto module),
so it is abstracted by its structure: GCM is a counter-mode stream
cipher (each plaintext byte XORed with a key- and nonce-derived
keystream byte) plus an authentication tag computed over the
ciphertext.  `GcmModel` packages the two key-dependent primitives; the
framing around them below (`encrypt`, `decrypt`) is translated from
`src/secrets.ts`. -/

structure GcmModel where
  /-- Keystream byte i for a given key and nonce (CTR core of GCM). -/
  pad : List Nat → List Nat → Nat → Nat
  /-- Authentication tag (16 bytes) over key, nonce and ciphertext. -/
  tag : List Nat → List Nat → List Nat → List Nat

/-- XOR a message with the keystream starting at byte index i. -/
def ctrXor (pad : Nat → Nat) : Nat → List Nat → List Nat
  | _, [] => []
  | i, b :: rest => (b ^^^ pad i) :: ctrXor pad (i + 1) rest

/-- Translated from `encrypt` in `src/secrets.ts`: AES-256-GCM with a
12-byte nonce `iv`, output `base64(iv ++ ciphertext ++ authTag)`.  The
source draws `iv` from `randomBytes(12)`; the fresh nonce is passed
explicitly here. -/
def encrypt (g : GcmModel) (plaintext key iv : List Nat) : List Nat :=
  let encrypted := ctrXor (g.pad key iv) 0 plaintext
  let authTag := g.tag key iv encrypted
  b64Encode (iv ++ encrypted ++ authTag)

/-- Translated from `decrypt` in `src/secrets.ts`: base64-decode, split
the buffer as nonce (first 12 bytes), authentication tag (last 16
bytes) and ciphertext (the middle), then decipher; `decipher.final()`
throws when the recomputed tag does not match the stored one, which is
modelled by the `Except.error` branch. -/
def decrypt (g : GcmModel) (encoded key : List Nat) : Except String (List Nat) :=
  let buf := b64Decode encoded
  let iv := buf.take 12
  let authTag := buf.drop (buf.length - 16)
  let ciphertext := (buf.drop 12).take (buf.length - 16 - 12)
  if g.tag key iv ciphertext = authTag then
    Except.ok (ctrXor (g.pad key iv) 0 ciphertext)
  else
    Except.error "Unsupported state or unable to authenticate data"

theorem ctrXor_length (pad : Nat → Nat) (i : Nat) (l : List Nat) :
    (ctrXor pad i l).length = l.length := by
  induction l generalizing i with
  | nil => rfl
  | cons b rest ih => simp [ctrXor, ih]

theorem ctrXor_lt (pad : Nat → Nat) (hpad : ∀ i, pad i < 256) (i : Nat) (l : List Nat)
    (h : ∀ b ∈ l, b < 256) : ∀ b ∈ ctrXor pad i l, b < 256 := by
  induction l generalizing i with
  | nil => simp [ctrXor]
  | cons x rest ih =>
    intro b hb
    simp only [ctrXor, List.mem_cons] at hb
    rcases hb with hb | hb
    · subst hb
      have hx : x < 256 := h x (by simp)
      exact Nat.xor_lt_two_pow (n := 8) hx (hpad i)
    · exact ih (i + 1) (fun y hy => h y (by simp [hy])) b hb

theorem ctrXor_ctrXor (pad : Nat → Nat) (i : Nat) (l : List Nat) :
    ctrXor pad i (ctrXor pad i l) = l := by
  induction l generalizing i with
  | nil => rfl
  | cons b rest ih =>
    simp only [ctrXor, List.cons.injEq]
    exact ⟨Nat.xor_cancel_right _ _, ih (i + 1)⟩

theorem take_twelve_of_parts (iv ct tag : List Nat) (hiv : iv.length = 12) :
    (iv ++ ct ++ tag).take 12 = iv := by
  rw [List.append_assoc, ← hiv, List.take_left]

theorem drop_to_tag_of_parts (iv ct tag : List Nat) (hiv : iv.length = 12)
    (htag : tag.length = 16) :
    (iv ++ ct ++ tag).drop ((iv ++ ct ++ tag).length - 16) = tag := by
  have hlen : (iv ++ ct).length = (iv ++ ct ++ tag).length - 16 := by
    simp [hiv, htag]
    omega
  rw [← hlen, List.drop_left]

theorem middle_ct_of_parts (iv ct tag : List Nat) (hiv : iv.length = 12)
    (htag : tag.length = 16) :
    ((iv ++ ct ++ tag).drop 12).take ((iv ++ ct ++ tag).length - 16 - 12) = ct := by
  have h1 : (iv ++ ct ++ tag).drop 12 = ct ++ tag := by
    rw [List.append_assoc, ← hiv, List.drop_left]
  have h2 : (iv ++ ct ++ tag).length - 16 - 12 = ct.length := by
    simp [hiv, htag]
    omega
  rw [h1, h2, List.take_left]

/-- Every value written by `encrypt` decrypts back to the original
plaintext under the same key: the stored record self-describes nonce,
ciphertext and authentication tag.  Holds for every plaintext byte
string (including the empty one), every 12-byte nonce, and every
keystream / tag primitive whose outputs are bytes with 16-byte tags. -/
theorem decrypt_encrypt (g : GcmModel) (x key iv : List Nat)
    (hx : ∀ b ∈ x, b < 256)
    (hivLen : iv.length = 12)
    (hivB : ∀ b ∈ iv, b < 256)
    (hpad : ∀ i, g.pad key iv i < 256)
    (htagLen : ∀ k i c, (g.tag k i c).length = 16)
    (htagB : ∀ k i c, ∀ b ∈ g.tag k i c, b < 256) :
    decrypt g (encrypt g x key iv) key = Except.ok x := by
  unfold encrypt decrypt
  set ct := ctrXor (g.pad key iv) 0 x with hct
  set tg := g.tag key iv ct with htg
  have hctB : ∀ b ∈ ct, b < 256 := ctrXor_lt _ hpad 0 x hx
  have hbufB : ∀ b ∈ iv ++ ct ++ tg, b < 256 := by
    intro b hb
    simp only [List.append_assoc, List.mem_append] at hb
    rcases hb with hb | hb | hb
    · exact hivB b hb
    · exact hctB b hb
    · exact htagB key iv ct b hb
  simp only []
  rw [b64Decode_b64Encode _ hbufB]
  rw [take_twelve_of_parts iv ct tg hivLen,
      drop_to_tag_of_parts iv ct tg hivLen (htagLen key iv ct),
      middle_ct_of_parts iv ct tg hivLen (htagLen key iv ct)]
  rw [if_pos rfl]
  rw [hct, ctrXor_ctrXor]

/-! ### The env_var table of the registry (src/registry.ts)

Rows of the `env_var` SQLite table.  The table has the composite
primary key `(name, scope)`; `value` holds the stored ciphertext (the
base64 text, as its symbol list). -/

structure EnvVarRow where
  name : String
  scope : String
  value : List Nat
deriving DecidableEq, Repr

/-- Composite primary key `(name, scope)` of the env_var table. -/
def envVarPK (table : List EnvVarRow) : Prop :=
  (table.map fun r => (r.name, r.scope)).Nodup

instance (table : List EnvVarRow) : Decidable (envVarPK table) := by
  unfold envVarPK
  infer_instance

/-- Translated from `getEnvVar` in `src/registry.ts`:
SELECT value FROM env_var WHERE name = ? AND scope = ?. -/
def getEnvVar (table : List EnvVarRow) (name scope : String) : Option (List Nat) :=
  (table.find? fun r => r.name == name && r.scope == scope).map (·.value)

/-- Translated from `listEnvVarsByScope` in `src/registry.ts`:
SELECT name, value FROM env_var WHERE scope = ? ORDER BY name. -/
def listEnvVarsByScope (table : List EnvVarRow) (scope : String) : List EnvVarRow :=
  (table.filter fun r => r.scope == scope).mergeSort fun a b => a.name ≤ b.name

/-! ### JavaScript records (Record<string, string>)

A JS object used as a string map, with insertion-order assignment
semantics: assigning to a present key overwrites in place, assigning
to an absent key appends. -/

def recordSet (env : List (String × List Nat)) (k : String) (v : List Nat) :
    List (String × List Nat) :=
  if env.any fun p => p.1 == k then
    env.map fun p => if p.1 == k then (k, v) else p
  else
    env ++ [(k, v)]

def recordGet (env : List (String × List Nat)) (k : String) : Option (List Nat) :=
  (env.find? fun p => p.1 == k).map (·.2)

theorem find?_map_overwrite_self (env : List (String × List Nat)) (k : String)
    (v : List Nat) (hmem : env.any (fun p => p.1 == k) = true) :
    (env.map fun p => if p.1 == k then (k, v) else p).find? (fun p => p.1 == k) =
      some (k, v) := by
  induction env with
  | nil => simp at hmem
  | cons p rest ih =>
    by_cases hp : (p.1 == k) = true
    · simp only [List.map_cons, if_pos hp, List.find?_cons, beq_self_eq_true]
    · have hpf : (p.1 == k) = false := by simpa using hp
      simp only [List.any_cons, hpf, Bool.false_or] at hmem
      simp only [List.map_cons, hpf, Bool.false_eq_true, if_false, List.find?_cons]
      exact ih hmem

theorem find?_append_single (env : List (String × List Nat)) (k : String)
    (v : List Nat) (hmem : ¬ env.any (fun p => p.1 == k) = true) :
    (env ++ [(k, v)]).find? (fun p => p.1 == k) = some (k, v) := by
  induction env with
  | nil => simp [List.find?_cons]
  | cons p rest ih =>
    simp only [List.any_cons, Bool.or_eq_true, not_or] at hmem
    simp only [List.cons_append, List.find?_cons]
    rw [show (p.1 == k) = false by simpa using hmem.1]
    exact ih (by simpa using hmem.2)

theorem recordGet_recordSet_self (env : List (String × List Nat)) (k : String)
    (v : List Nat) : recordGet (recordSet env k v) k = some v := by
  unfold recordSet recordGet
  by_cases hmem : env.any (fun p => p.1 == k) = true
  · rw [if_pos hmem, find?_map_overwrite_self env k v hmem]
    rfl
  · rw [if_neg hmem, find?_append_single env k v hmem]
    rfl

theorem find?_map_overwrite (env : List (String × List Nat)) (k k' : String)
    (v : List Nat) (h : k' ≠ k) :
    (env.map fun p => if p.1 == k then (k, v) else p).find? (fun p => p.1 == k') =
      env.find? (fun p => p.1 == k') := by
  induction env with
  | nil => rfl
  | cons p rest ih =>
    by_cases hp : (p.1 == k) = true
    · have hpk : p.1 = k := by simpa using hp
      simp only [List.map_cons, if_pos hp, List.find?_cons]
      rw [show (k == k') = false by simp [Ne.symm h],
          show (p.1 == k') = false by simp [hpk, Ne.symm h]]
      exact ih
    · have hpf : (p.1 == k) = false := by simpa using hp
      simp only [List.map_cons, hpf, Bool.false_eq_true, if_false, List.find?_cons]
      cases hfind : (p.1 == k') with
      | true => simp only [hfind]
      | false => simp only [hfind]; exact ih

theorem recordGet_recordSet_ne (env : List (String × List Nat)) (k k' : String)
    (v : List Nat) (h : k' ≠ k) : recordGet (recordSet env k v) k' = recordGet env k' := by
  unfold recordSet recordGet
  by_cases hmem : env.any (fun p => p.1 == k) = true
  · rw [if_pos hmem, find?_map_overwrite env k k' v h]
  · rw [if_neg hmem, List.find?_append]
    have hsingle : (([(k, v)] : List (String × List Nat)).find? fun p => p.1 == k') = none := by
      simp [List.find?_cons, Ne.symm h]
    rw [hsingle]
    cases env.find? fun p => p.1 == k' <;> rfl

/-! ### SqliteSecretBackend (src/secrets.ts) -/

/-- Translated from the decrypt-and-collect loops in
`SqliteSecretBackend.resolve`: for each row,
`env[row.name] = decrypt(row.value, key)`; a decryption failure throws
out of the whole call. -/
def decryptPass (g : GcmModel) (key : List Nat) :
    List EnvVarRow → List (String × List Nat) → Except String (List (String × List Nat))
  | [], env => Except.ok env
  | r :: rest, env =>
    match decrypt g r.value key with
    | Except.error e => Except.error e
    | Except.ok v => decryptPass g key rest (recordSet env r.name v)

/-- Translated from `SqliteSecretBackend.resolve` in `src/secrets.ts`:
load the globally scoped (scope = "") vars first, then — only when
`project` is non-empty (JS string truthiness) — overlay the vars
scoped to `project`. -/
def resolve (g : GcmModel) (key : List Nat) (table : List EnvVarRow) (project : String) :
    Except String (List (String × List Nat)) :=
  match decryptPass g key (listEnvVarsByScope table "") [] with
  | Except.error e => Except.error e
  | Except.ok env =>
    if project ≠ "" then
      decryptPass g key (listEnvVarsByScope table project) env
    else
      Except.ok env

/-- Translated from `SqliteSecretBackend.get` in `src/secrets.ts`:
look the row up at scope `project ?? ""`, return undefined when
absent, otherwise decrypt (propagating a decryption failure). -/
def sGet (g : GcmModel) (key : List Nat) (table : List EnvVarRow) (name : String)
    (project : Option String) : Except String (Option (List Nat)) :=
  match getEnvVar table name (project.getD "") with
  | none => Except.ok none
  | some row => (decrypt g row key).map some

theorem decryptPass_isOk (g : GcmModel) (key : List Nat) (rows : List EnvVarRow)
    (env0 : List (String × List Nat))
    (hd : ∀ r ∈ rows, (decrypt g r.value key).isOk = true) :
    ∃ env1, decryptPass g key rows env0 = Except.ok env1 := by
  induction rows generalizing env0 with
  | nil => exact ⟨env0, rfl⟩
  | cons r rest ih =>
    have hr := hd r (by simp)
    cases hdr : decrypt g r.value key with
    | error e => rw [hdr] at hr; cases hr
    | ok v =>
      obtain ⟨env1, h1⟩ := ih (recordSet env0 r.name v) (fun x hx => hd x (by simp [hx]))
      exact ⟨env1, by simp only [decryptPass, hdr]; exact h1⟩

theorem decryptPass_get (g : GcmModel) (key : List Nat) (rows : List EnvVarRow)
    (env0 env1 : List (String × List Nat)) (n : String)
    (hnd : (rows.map (·.name)).Nodup)
    (h : decryptPass g key rows env0 = Except.ok env1) :
    recordGet env1 n =
      match rows.find? (fun r => r.name == n) with
      | some r => (decrypt g r.value key).toOption
      | none => recordGet env0 n := by
  induction rows generalizing env0 with
  | nil =>
    simp only [decryptPass] at h
    cases h
    rfl
  | cons r rest ih =>
    simp only [decryptPass] at h
    cases hdr : decrypt g r.value key with
    | error e => rw [hdr] at h; cases h
    | ok v =>
      rw [hdr] at h
      rw [List.map_cons] at hnd
      have hndc := List.nodup_cons.mp hnd
      have hrec := ih (recordSet env0 r.name v) hndc.2 h
      rw [hrec]
      by_cases hn : (r.name == n) = true
      · have hrn : r.name = n := by simpa using hn
        have hrest : rest.find? (fun r' => r'.name == n) = none := by
          rw [List.find?_eq_none]
          intro x hx hxn
          have hxe : x.name = n := by simpa using hxn
          exact hndc.1 (hrn ▸ hxe ▸ List.mem_map_of_mem (fun r' => r'.name) hx)
        rw [List.find?_cons, hn, hrest]
        simp only [hrn, recordGet_recordSet_self, hdr]
        rfl
      · have hnf : (r.name == n) = false := by simpa using hn
        rw [List.find?_cons, hnf]
        cases hfr : rest.find? fun r' => r'.name == n with
        | some r' => rfl
        | none =>
          exact recordGet_recordSet_ne env0 r.name n v (fun hh => hn (by simp [hh]))

theorem find?_perm_of_unique {α : Type} (p : α → Bool) {l l' : List α} (hperm : l.Perm l')
    (hu : ∀ a ∈ l, ∀ b ∈ l, p a = true → p b = true → a = b) :
    l.find? p = l'.find? p := by
  cases hfl : l.find? p with
  | none =>
    rw [List.find?_eq_none] at hfl
    symm
    rw [List.find?_eq_none]
    intro x hx
    exact hfl x (hperm.mem_iff.mpr hx)
  | some a =>
    have ha : p a = true := List.find?_some hfl
    have ham : a ∈ l := List.mem_of_find?_eq_some hfl
    cases hfl' : l'.find? p with
    | none =>
      rw [List.find?_eq_none] at hfl'
      exact absurd ha (hfl' a (hperm.mem_iff.mp ham))
    | some b =>
      have hb : p b = true := List.find?_some hfl'
      have hbm : b ∈ l := hperm.mem_iff.mpr (List.mem_of_find?_eq_some hfl')
      rw [hu a ham b hbm ha hb]

theorem listEnvVarsByScope_perm (table : List EnvVarRow) (s : String) :
    (listEnvVarsByScope table s).Perm (table.filter fun r => r.scope == s) :=
  List.mergeSort_perm _ _

theorem mem_scope_of_mem_filter {table : List EnvVarRow} {s : String} {r : EnvVarRow}
    (h : r ∈ table.filter fun r => r.scope == s) : r ∈ table ∧ r.scope = s := by
  have := List.mem_filter.mp h
  exact ⟨this.1, by simpa using this.2⟩

theorem filter_pairs_nodup (table : List EnvVarRow) (s : String) (hPK : envVarPK table) :
    ((table.filter fun r => r.scope == s).map fun r => (r.name, r.scope)).Nodup :=
  List.Nodup.sublist (List.Sublist.map _ (List.filter_sublist table)) hPK

theorem names_nodup_of_PK (table : List EnvVarRow) (s : String) (hPK : envVarPK table) :
    ((table.filter fun r => r.scope == s).map (·.name)).Nodup := by
  have hpairs := filter_pairs_nodup table s hPK
  have hinj := List.inj_on_of_nodup_map hpairs
  refine List.Nodup.map_on ?_ (List.Nodup.of_map _ hpairs)
  intro x hx y hy hxy
  have hxs := (mem_scope_of_mem_filter hx).2
  have hys := (mem_scope_of_mem_filter hy).2
  exact hinj hx hy (by rw [hxy, hxs, hys])

theorem find?_filter_scope (l : List EnvVarRow) (n s : String) :
    ((l.filter fun r => r.scope == s).find? fun r => r.name == n) =
      l.find? fun r => r.name == n && r.scope == s := by
  induction l with
  | nil => rfl
  | cons r rest ih =>
    by_cases hs : (r.scope == s) = true
    · by_cases hn : (r.name == n) = true
      · simp [List.filter_cons, hs, List.find?_cons, hn]
      · have hnf : (r.name == n) = false := by simpa using hn
        simp [List.filter_cons, hs, List.find?_cons, hnf, ih]
    · have hsf : (r.scope == s) = false := by simpa using hs
      simp [List.filter_cons, hsf, List.find?_cons, ih, Bool.and_false]

/-- The find?-by-name over a scope listing agrees with the registry
lookup at the composite key, given the primary key invariant. -/
theorem find?_scope_listing (table : List EnvVarRow) (n s : String) (hPK : envVarPK table) :
    ((listEnvVarsByScope table s).find? fun r => r.name == n) =
      table.find? fun r => r.name == n && r.scope == s := by
  rw [← find?_filter_scope]
  apply find?_perm_of_unique _ (listEnvVarsByScope_perm table s)
  intro a ha b hb hpa hpb
  have ha' := (listEnvVarsByScope_perm table s).mem_iff.mp ha
  have hb' := (listEnvVarsByScope_perm table s).mem_iff.mp hb
  have hinj := List.inj_on_of_nodup_map (filter_pairs_nodup table s hPK)
  have hsa := (mem_scope_of_mem_filter ha').2
  have hsb := (mem_scope_of_mem_filter hb').2
  have hna : a.name = n := by simpa using hpa
  have hnb : b.name = n := by simpa using hpb
  exact hinj ha' hb' (by rw [hna, hnb, hsa, hsb])

/-- Written from the wording of the spec for `resolve(project)`: the merged
set contains every global entry, overlaid by every entry scoped to the
project, the project-scoped value winning for a name present at both
scopes. -/
def specMerge (g : GcmModel) (key : List Nat) (table : List EnvVarRow)
    (project n : String) : Option (List Nat) :=
  match getEnvVar table n project with
  | some c => (decrypt g c key).toOption
  | none =>
    match getEnvVar table n "" with
    | some c => (decrypt g c key).toOption
    | none => none

theorem scope_names_nodup (table : List EnvVarRow) (s : String) (hPK : envVarPK table) :
    ((listEnvVarsByScope table s).map (·.name)).Nodup :=
  (((listEnvVarsByScope_perm table s).map (·.name)).nodup_iff).mpr
    (names_nodup_of_PK table s hPK)

theorem scope_dec (g : GcmModel) (key : List Nat) (table : List EnvVarRow) (s : String)
    (hdec : ∀ r ∈ table, (decrypt g r.value key).isOk = true) :
    ∀ r ∈ listEnvVarsByScope table s, (decrypt g r.value key).isOk = true :=
  fun r hr =>
    hdec r (mem_scope_of_mem_filter ((listEnvVarsByScope_perm table s).mem_iff.mp hr)).1

/-- C1: for every project name, `resolve` returns the merged
credential set: every globally scoped (scope = "") secret decrypted,
overlaid by every secret scoped to the project, with the
project-scoped value winning for a name present at both scopes. -/
theorem resolve_merges_scopes (g : GcmModel) (key : List Nat) (table : List EnvVarRow)
    (project : String) (hPK : envVarPK table)
    (hdec : ∀ r ∈ table, (decrypt g r.value key).isOk = true) :
    ∃ env, resolve g key table project = Except.ok env ∧
      ∀ n, recordGet env n = specMerge g key table project n := by
  obtain ⟨env1, h1⟩ := decryptPass_isOk g key (listEnvVarsByScope table "") []
    (scope_dec g key table "" hdec)
  by_cases hp : project = ""
  · subst hp
    refine ⟨env1, ?_, ?_⟩
    · unfold resolve
      rw [h1]
      simp
    · intro n
      have hg := decryptPass_get g key _ [] env1 n (scope_names_nodup table "" hPK) h1
      rw [hg, find?_scope_listing table n "" hPK]
      unfold specMerge getEnvVar
      cases table.find? (fun r => r.name == n && r.scope == "") with
      | none => simp [recordGet]
      | some r => simp
  · obtain ⟨env2, h2⟩ := decryptPass_isOk g key (listEnvVarsByScope table project) env1
      (scope_dec g key table project hdec)
    refine ⟨env2, ?_, ?_⟩
    · unfold resolve
      rw [h1]
      simp only [ne_eq, hp, not_false_eq_true, if_true]
      exact h2
    · intro n
      have hg := decryptPass_get g key _ [] env1 n (scope_names_nodup table "" hPK) h1
      have hpj := decryptPass_get g key _ env1 env2 n
        (scope_names_nodup table project hPK) h2
      rw [hpj, find?_scope_listing table n project hPK]
      unfold specMerge getEnvVar
      cases table.find? (fun r => r.name == n && r.scope == project) with
      | some r => simp
      | none =>
        simp only [Option.map_none]
        rw [hg, find?_scope_listing table n "" hPK]
        cases table.find? (fun r => r.name == n && r.scope == "") with
        | some r => simp
        | none => simp [recordGet]

/-- C10: resolving with the empty project name returns exactly the
decrypted global-scope entries and nothing else; the project-overlay
pass is skipped for the empty string. -/
theorem resolve_empty_project (g : GcmModel) (key : List Nat) (table : List EnvVarRow)
    (hPK : envVarPK table)
    (hdecG : ∀ r ∈ table, r.scope = "" → (decrypt g r.value key).isOk = true) :
    ∃ env, resolve g key table "" = Except.ok env ∧
      decryptPass g key (listEnvVarsByScope table "") [] = Except.ok env ∧
      ∀ n, recordGet env n =
        match getEnvVar table n "" with
        | some c => (decrypt g c key).toOption
        | none => none := by
  have hd : ∀ r ∈ listEnvVarsByScope table "", (decrypt g r.value key).isOk = true := by
    intro r hr
    have hm := mem_scope_of_mem_filter ((listEnvVarsByScope_perm table "").mem_iff.mp hr)
    exact hdecG r hm.1 hm.2
  obtain ⟨env1, h1⟩ := decryptPass_isOk g key (listEnvVarsByScope table "") [] hd
  refine ⟨env1, ?_, h1, ?_⟩
  · unfold resolve
    rw [h1]
    simp
  · intro n
    have hg := decryptPass_get g key _ [] env1 n (scope_names_nodup table "" hPK) h1
    rw [hg, find?_scope_listing table n "" hPK]
    unfold getEnvVar
    cases table.find? (fun r => r.name == n && r.scope == "") with
    | none => simp [recordGet]
    | some r => simp

/-! ### Tampering with a stored secret (claim C3 infrastructure) -/

theorem set_ne_of_ne {l : List Nat} {j v : Nat} (hj : j < l.length)
    (hne : l.get ⟨j, hj⟩ ≠ v) : l.set j v ≠ l := by
  intro h
  apply hne
  have hj2 : j < (l.set j v).length := by rw [List.length_set]; exact hj
  have q1 : (l.set j v)[j]? = some v := by
    rw [List.getElem?_eq_getElem hj2, List.getElem_set_self hj2]
  rw [h, List.getElem?_eq_getElem hj] at q1
  simpa using q1

theorem set_bytes_lt {l : List Nat} {j v : Nat} (hl : ∀ b ∈ l, b < 256) (hv : v < 256) :
    ∀ b ∈ l.set j v, b < 256 := fun b hb =>
  (List.mem_or_eq_of_mem_set hb).elim (hl b) (fun h => h ▸ hv)

theorem set_parts_left {iv ct tg : List Nat} {j v : Nat} (hj : j < iv.length) :
    (iv ++ ct ++ tg).set j v = iv.set j v ++ ct ++ tg := by
  rw [List.set_append (s := iv ++ ct), if_pos (by simp only [List.length_append]; omega),
      List.set_append (s := iv), if_pos hj]

theorem set_parts_mid {iv ct tg : List Nat} {j v : Nat} (h1 : iv.length ≤ j)
    (h2 : j < iv.length + ct.length) :
    (iv ++ ct ++ tg).set j v = iv ++ ct.set (j - iv.length) v ++ tg := by
  rw [List.set_append (s := iv ++ ct), if_pos (by simp only [List.length_append]; omega),
      List.set_append (s := iv), if_neg (by omega)]

theorem set_parts_right {iv ct tg : List Nat} {j v : Nat} (h1 : iv.length + ct.length ≤ j) :
    (iv ++ ct ++ tg).set j v = iv ++ ct ++ tg.set (j - iv.length - ct.length) v := by
  rw [List.set_append (s := iv ++ ct),
      if_neg (by simp only [List.length_append]; omega)]
  congr 1
  simp [Nat.sub_sub]

/-- C3: tampering with the stored record of a secret — replacing any
single byte, or truncating it — makes `get` on that (name, scope)
raise the decryption failure rather than return altered plaintext.
The stored value is `encrypt g x key iv`, whose underlying record is
`iv ++ ct ++ tg` (`hct`, `htg`).  The first part covers the record
with byte `j` replaced by `v ≠` the original byte: its detection
hypothesis is the authentication property of the GCM tag — altering
the nonce or the ciphertext (lengths preserved) changes the tag —
which is the cryptographic guarantee of AES-256-GCM itself, external
to the repository (node:crypto), so it enters explicitly; alterations
inside the stored tag are caught unconditionally.  The second part
covers the record truncated to any length `m` with `16 ≤ m` below the
full record length: the parse then reads the original nonce, the
ciphertext cut to `m - 28` bytes, and the 16-byte window of the
record ending at byte `m` in place of the tag, and the detection
hypothesis — GCM forgery resistance again — says the tag of the cut
ciphertext differs from that window.  (Truncation below 16 bytes
leaves fewer than 16 bytes in the tag slot, where the subarray
arithmetic of the source wraps around negative indices; such inputs
are outside this statement.) -/
theorem get_tampered_fails (g : GcmModel) (x key iv ct tg : List Nat)
    (hct : ct = ctrXor (g.pad key iv) 0 x)
    (htg : tg = g.tag key iv ct)
    (hx : ∀ b ∈ x, b < 256)
    (hivLen : iv.length = 12)
    (hivB : ∀ b ∈ iv, b < 256)
    (hpad : ∀ i, g.pad key iv i < 256)
    (htgLen : tg.length = 16)
    (htgB : ∀ b ∈ tg, b < 256) :
    (∀ (table : List EnvVarRow) (name : String) (project : Option String)
      (j v : Nat) (hj : j < (iv ++ ct ++ tg).length),
      v < 256 →
      (iv ++ ct ++ tg).get ⟨j, hj⟩ ≠ v →
      getEnvVar table name (project.getD "") =
        some (b64Encode ((iv ++ ct ++ tg).set j v)) →
      (∀ iv2 ct2, iv2.length = 12 → ct2.length = ct.length →
        (∀ b ∈ iv2, b < 256) → (∀ b ∈ ct2, b < 256) →
        (iv2, ct2) ≠ (iv, ct) → g.tag key iv2 ct2 ≠ g.tag key iv ct) →
      sGet g key table name project =
        Except.error "Unsupported state or unable to authenticate data") ∧
    (∀ (table : List EnvVarRow) (name : String) (project : Option String) (m : Nat),
      16 ≤ m → m < (iv ++ ct ++ tg).length →
      getEnvVar table name (project.getD "") =
        some (b64Encode ((iv ++ ct ++ tg).take m)) →
      g.tag key iv (ct.take (m - 28)) ≠ ((iv ++ ct ++ tg).drop (m - 16)).take 16 →
      sGet g key table name project =
        Except.error "Unsupported state or unable to authenticate data") := by
  have hctB : ∀ b ∈ ct, b < 256 := hct ▸ ctrXor_lt _ hpad 0 x hx
  have hbufB : ∀ b ∈ iv ++ ct ++ tg, b < 256 := by
    intro b hb
    simp only [List.append_assoc, List.mem_append] at hb
    rcases hb with hb | hb | hb
    · exact hivB b hb
    · exact hctB b hb
    · exact htgB b hb
  constructor
  · intro table name project j v hj hv hne hrow hdetect
    have hroundtrip : b64Decode (b64Encode ((iv ++ ct ++ tg).set j v)) =
        (iv ++ ct ++ tg).set j v :=
      b64Decode_b64Encode _ (set_bytes_lt hbufB hv)
    suffices hdec : decrypt g (b64Encode ((iv ++ ct ++ tg).set j v)) key =
        Except.error "Unsupported state or unable to authenticate data" by
      unfold sGet
      rw [hrow]
      show Except.map some (decrypt g (b64Encode ((iv ++ ct ++ tg).set j v)) key) =
        Except.error "Unsupported state or unable to authenticate data"
      rw [hdec]
      rfl
    unfold decrypt
    rw [hroundtrip]
    simp only [List.length_append] at hj
    rcases Nat.lt_or_ge j iv.length with hreg | hreg1
    · -- alteration inside the nonce
      have hsplit := @set_parts_left iv ct tg j v hreg
      rw [hsplit]
      simp only []
      have hivLen2 : (iv.set j v).length = 12 := by rw [List.length_set]; exact hivLen
      rw [take_twelve_of_parts _ ct tg hivLen2, drop_to_tag_of_parts _ ct tg hivLen2 htgLen,
          middle_ct_of_parts _ ct tg hivLen2 htgLen]
      have hget : (iv ++ ct ++ tg).get ⟨j, by simp only [List.length_append]; omega⟩ =
          iv.get ⟨j, hreg⟩ := by
        simp only [List.get_eq_getElem]
        rw [List.getElem_append_left (by simp only [List.length_append]; omega),
            List.getElem_append_left hreg]
      have hivne : iv.set j v ≠ iv := set_ne_of_ne hreg (by rw [← hget]; exact hne)
      have hcond : g.tag key (iv.set j v) ct ≠ tg := by
        rw [htg]
        exact hdetect (iv.set j v) ct hivLen2 rfl (set_bytes_lt hivB hv) hctB
          (by simp [hivne])
      rw [if_neg hcond]
    · rcases Nat.lt_or_ge j (iv.length + ct.length) with hreg2 | hreg2
      · -- alteration inside the ciphertext
        have hsplit := @set_parts_mid iv ct tg j v hreg1 hreg2
        rw [hsplit]
        simp only []
        have hctLen2 : (ct.set (j - iv.length) v).length = ct.length := List.length_set ..
        rw [take_twelve_of_parts iv _ tg hivLen, drop_to_tag_of_parts iv _ tg hivLen htgLen,
            middle_ct_of_parts iv _ tg hivLen htgLen]
        have hjct : j - iv.length < ct.length := by omega
        have hget : (iv ++ ct ++ tg).get ⟨j, by simp only [List.length_append]; omega⟩ =
            ct.get ⟨j - iv.length, hjct⟩ := by
          simp only [List.get_eq_getElem]
          rw [List.getElem_append_left
                (show j < (iv ++ ct).length by simp only [List.length_append]; omega),
              List.getElem_append_right hreg1]
        have hctne : ct.set (j - iv.length) v ≠ ct :=
          set_ne_of_ne hjct (by rw [← hget]; exact hne)
        have hcond : g.tag key iv (ct.set (j - iv.length) v) ≠ tg := by
          rw [htg]
          exact hdetect iv _ hivLen hctLen2 hivB (set_bytes_lt hctB hv) (by simp [hctne])
        rw [if_neg hcond]
      · -- alteration inside the stored tag
        have hsplit := @set_parts_right iv ct tg j v hreg2
        rw [hsplit]
        simp only []
        have hjtg : j - iv.length - ct.length < tg.length := by omega
        have htgLen2 : (tg.set (j - iv.length - ct.length) v).length = 16 := by
          rw [List.length_set]; exact htgLen
        rw [take_twelve_of_parts iv ct _ hivLen,
            drop_to_tag_of_parts iv ct _ hivLen htgLen2,
            middle_ct_of_parts iv ct _ hivLen htgLen2]
        have hget : (iv ++ ct ++ tg).get ⟨j, by simp only [List.length_append]; omega⟩ =
            tg.get ⟨j - iv.length - ct.length, hjtg⟩ := by
          simp only [List.get_eq_getElem]
          rw [List.getElem_append_right
            (show (iv ++ ct).length ≤ j by simp only [List.length_append]; omega)]
          simp only [List.length_append, Nat.sub_sub]
        have htgne : tg.set (j - iv.length - ct.length) v ≠ tg :=
          set_ne_of_ne hjtg (by rw [← hget]; exact hne)
        have hcond : g.tag key iv ct ≠ tg.set (j - iv.length - ct.length) v := by
          rw [← htg]
          exact fun h => htgne (h ▸ rfl)
        rw [if_neg hcond]
  · intro table name project m hm16 hmL hrow htrunc
    have hbufBt : ∀ b ∈ (iv ++ ct ++ tg).take m, b < 256 :=
      fun b hb => hbufB b (List.mem_of_mem_take hb)
    have hroundtrip : b64Decode (b64Encode ((iv ++ ct ++ tg).take m)) =
        (iv ++ ct ++ tg).take m :=
      b64Decode_b64Encode _ hbufBt
    suffices hdec : decrypt g (b64Encode ((iv ++ ct ++ tg).take m)) key =
        Except.error "Unsupported state or unable to authenticate data" by
      unfold sGet
      rw [hrow]
      show Except.map some (decrypt g (b64Encode ((iv ++ ct ++ tg).take m)) key) =
        Except.error "Unsupported state or unable to authenticate data"
      rw [hdec]
      rfl
    unfold decrypt
    rw [hroundtrip]
    simp only []
    have hLen : ((iv ++ ct ++ tg).take m).length = m := by
      rw [List.length_take]
      simp only [List.length_append] at hmL ⊢
      omega
    have hiv2 : ((iv ++ ct ++ tg).take m).take 12 = iv := by
      rw [List.take_take, show (12 ⊓ m) = 12 by omega, ← hivLen, List.append_assoc,
        List.take_left]
    have htag2 : ((iv ++ ct ++ tg).take m).drop (m - 16) =
        ((iv ++ ct ++ tg).drop (m - 16)).take 16 := by
      rw [List.drop_take]
      congr 1
      omega
    have hct2 : (((iv ++ ct ++ tg).take m).drop 12).take (m - 16 - 12) =
        ct.take (m - 28) := by
      rw [List.drop_take, List.take_take,
        show ((m - 16 - 12) ⊓ (m - 12)) = m - 28 by omega, List.append_assoc,
        ← hivLen, List.drop_left, List.take_append_eq_append_take,
        show m - 28 - ct.length = 0 by
          simp only [List.length_append] at hmL
          omega]
      simp
    rw [hLen, hiv2, htag2, hct2]
    rw [if_neg htrunc]

/-! ### Registry project and environment tables (src/registry.ts)

The `created_at` column (TEXT, defaulted) plays no role in any claim
and is omitted.  The CLI of this revision calls the environment key
column `task`; the registry stores it as the primary-key column. -/

structure ProjectRow where
  name : String
  provider : String
  vm_id : String
  base_image : String
  ip : Option String
  status : String
deriving DecidableEq, Repr

structure TaskRow where
  task : String
  project : String
  provider : String
  vm_id : String
  base_image : String
  ip : Option String
  status : String
deriving DecidableEq, Repr

/-- Translated from `get` in `src/registry.ts`:
SELECT * FROM environment WHERE the key column matches. -/
def regGet (envs : List TaskRow) (t : String) : Option TaskRow :=
  envs.find? fun e => e.task == t

/-- Translated from `register` in `src/registry.ts`: INSERT INTO
environment.  The key column is the primary key, so inserting an
existing id throws the SQLite unique-constraint error. -/
def register (envs : List TaskRow) (row : TaskRow) : Except String (List TaskRow) :=
  if (regGet envs row.task).isSome then
    Except.error "UNIQUE constraint failed: environment.ticket"
  else
    Except.ok (envs ++ [row])

/-- Translated from `getProject` in `src/registry.ts`. -/
def getProjectRow (projects : List ProjectRow) (name : String) : Option ProjectRow :=
  projects.find? fun p => p.name == name

/-- Translated from `removeProject` in `src/registry.ts`:
DELETE FROM project WHERE name = ?. -/
def removeProject (projects : List ProjectRow) (name : String) : List ProjectRow :=
  projects.filter fun p => p.name != name

theorem getProjectRow_removeProject_self (projects : List ProjectRow) (name : String) :
    getProjectRow (removeProject projects name) name = none := by
  unfold getProjectRow removeProject
  rw [List.find?_eq_none]
  intro p hp hname
  have h1 := (List.mem_filter.mp hp).2
  simp only [bne_iff_ne, ne_eq] at h1
  exact h1 (by simpa using hname)

theorem getProjectRow_removeProject_ne (projects : List ProjectRow) (name m : String)
    (h : m ≠ name) :
    getProjectRow (removeProject projects name) m = getProjectRow projects m := by
  unfold getProjectRow removeProject
  induction projects with
  | nil => rfl
  | cons p rest ih =>
    by_cases hkeep : (p.name != name) = true
    · simp only [List.filter_cons, hkeep, List.find?_cons]
      cases hm : (p.name == m) <;> simp [hm, ih]
    · have hpn : p.name = name := by simpa using hkeep
      have hm : (p.name == m) = false := by simp [hpn, Ne.symm h]
      simp only [List.filter_cons, hkeep, List.find?_cons, hm]
      exact ih

/-! ### cmdProjectDelete (the project delete command of the CLI)

The provider resolution and `provider.deleteVm` call are abstracted by
the `deleteVm` parameter (outcome of the provider call on a given VM
handle); the second component of the result records which VM handles
were passed to the deleteVm of the provider. -/

def cmdProjectDelete (projects : List ProjectRow) (envs : List TaskRow)
    (deleteVm : String → Except String Unit) (name : String) :
    Except String (List ProjectRow) × List String :=
  let tasks := envs.filter fun e => e.project == name
  if tasks.length > 0 then
    (Except.error ("Project " ++ name ++ " still has " ++ toString tasks.length ++
      " task(s): " ++ String.intercalate ", " (tasks.map (·.task)) ++
      ". Delete them first."), [])
  else
    match getProjectRow projects name with
    | none => (Except.error ("No project found: " ++ name), [])
    | some proj =>
      match deleteVm proj.vm_id with
      | Except.error e => (Except.error e, [proj.vm_id])
      | Except.ok _ => (Except.ok (removeProject projects name), [proj.vm_id])

/-- C5: deleting a project is refused — with a hard error naming
exactly the referencing task ids, and without invoking the provider
deleteVm — whenever at least one task row references it; with zero
referencing rows (and the provider call succeeding) it succeeds and
leaves no registry row for the project, while every other project row
is untouched. -/
theorem project_delete_guard (projects : List ProjectRow) (envs : List TaskRow)
    (deleteVm : String → Except String Unit) (name : String) :
    (envs.filter (fun e => e.project == name) ≠ [] →
      cmdProjectDelete projects envs deleteVm name =
        (Except.error ("Project " ++ name ++ " still has " ++
          toString (envs.filter (fun e => e.project == name)).length ++
          " task(s): " ++
          String.intercalate ", "
            ((envs.filter (fun e => e.project == name)).map (·.task)) ++
          ". Delete them first."), [])) ∧
    (envs.filter (fun e => e.project == name) = [] →
      ∀ proj, getProjectRow projects name = some proj →
        deleteVm proj.vm_id = Except.ok () →
        cmdProjectDelete projects envs deleteVm name =
          (Except.ok (removeProject projects name), [proj.vm_id]) ∧
        getProjectRow (removeProject projects name) name = none ∧
        ∀ m, m ≠ name →
          getProjectRow (removeProject projects name) m = getProjectRow projects m) := by
  constructor
  · intro href
    unfold cmdProjectDelete
    rw [if_pos (by
      cases hf : envs.filter (fun e => e.project == name) with
      | nil => exact absurd hf href
      | cons a l => simp [hf])]
  · intro href proj hproj hdel
    refine ⟨?_, getProjectRow_removeProject_self projects name,
      fun m hm => getProjectRow_removeProject_ne projects name m hm⟩
    unfold cmdProjectDelete
    rw [if_neg (by simp [href]), hproj]
    simp only [hdel]

/-! ### cmdBulkCreate (the bulk create command of the CLI)

`Promise.allSettled` over one create per task id.  In each closure the
`registry.get(task)` existence check runs synchronously before any
`await` resolves, hence against the pre-bulk registry `reg0`; each
successful create then registers its row in the live registry (whose
primary key rejects duplicates).  Settlement order is modelled as list
order; outcomes of distinct ids do not depend on it. -/

structure VmInfo where
  vmId : String
  task : String
  ip : Option String
  status : String
deriving DecidableEq, Repr

/-- The environment row registered for one bulk-created task (the
object literal passed to `registry.register` in `cmdBulkCreate`). -/
def mkTaskRow (t pn pv bi : String) (vm : VmInfo) : TaskRow :=
  { task := t, project := pn, provider := pv, vm_id := vm.vmId,
    base_image := bi, ip := vm.ip, status := vm.status }

def bulkAttempt (reg0 acc : List TaskRow) (projectName baseImage providerName : String)
    (createVm : String → Except String VmInfo) (t : String) :
    Except String (VmInfo × List TaskRow) :=
  if (regGet reg0 t).isSome then
    Except.error ("Task " ++ t ++ " already exists")
  else
    match createVm t with
    | Except.error e => Except.error e
    | Except.ok vm =>
      match register acc { task := t, project := projectName, provider := providerName,
                           vm_id := vm.vmId, base_image := baseImage, ip := vm.ip,
                           status := vm.status } with
      | Except.error e => Except.error e
      | Except.ok acc2 => Except.ok (vm, acc2)

def bulkCreateLoop (reg0 : List TaskRow) (projectName baseImage providerName : String)
    (createVm : String → Except String VmInfo) :
    List String → List TaskRow → List (Except String VmInfo) × List TaskRow
  | [], acc => ([], acc)
  | t :: rest, acc =>
    match bulkAttempt reg0 acc projectName baseImage providerName createVm t with
    | Except.ok (vm, acc2) =>
      let r := bulkCreateLoop reg0 projectName baseImage providerName createVm rest acc2
      (Except.ok vm :: r.1, r.2)
    | Except.error e =>
      let r := bulkCreateLoop reg0 projectName baseImage providerName createVm rest acc
      (Except.error e :: r.1, r.2)

def bulkCreate (reg0 : List TaskRow) (projectName baseImage providerName : String)
    (createVm : String → Except String VmInfo) (tasks : List String) :
    List (Except String VmInfo) × List TaskRow :=
  bulkCreateLoop reg0 projectName baseImage providerName createVm tasks reg0

/-- Translated from the aggregate count line of `cmdBulkCreate`. -/
def bulkSummary (outs : List (Except String VmInfo)) : String :=
  toString (outs.filter (·.isOk)).length ++ " created, " ++
    toString (outs.filter (fun r => !r.isOk)).length ++ " failed"

theorem bulkCreateLoop_length (reg0 : List TaskRow)
    (projectName baseImage providerName : String)
    (createVm : String → Except String VmInfo) (tasks : List String)
    (acc : List TaskRow) :
    (bulkCreateLoop reg0 projectName baseImage providerName createVm tasks acc).1.length =
      tasks.length := by
  induction tasks generalizing acc with
  | nil => rfl
  | cons t rest ih =>
    unfold bulkCreateLoop
    cases bulkAttempt reg0 acc projectName baseImage providerName createVm t with
    | ok p => simp [ih]
    | error e => simp [ih]

theorem regGet_append_single_ne (l : List TaskRow) (row : TaskRow) (t : String)
    (h : row.task ≠ t) : regGet (l ++ [row]) t = regGet l t := by
  unfold regGet
  rw [List.find?_append]
  have hr : ([row].find? fun e => e.task == t) = none := by
    simp [List.find?_cons, h]
  rw [hr]
  cases l.find? fun e => e.task == t <;> rfl

theorem regGet_append_single_self (l : List TaskRow) (row : TaskRow)
    (h : regGet l row.task = none) : regGet (l ++ [row]) row.task = some row := by
  unfold regGet at h ⊢
  rw [List.find?_append, h]
  simp [List.find?_cons]

theorem bulkAttempt_fresh (reg0 acc : List TaskRow) (pn bi pv : String)
    (createVm : String → Except String VmInfo) (t : String) (vm : VmInfo)
    (h0 : regGet reg0 t = none) (hacc : regGet acc t = none)
    (hcv : createVm t = Except.ok vm) :
    bulkAttempt reg0 acc pn bi pv createVm t =
      Except.ok (vm, acc ++ [mkTaskRow t pn pv bi vm]) := by
  unfold bulkAttempt register
  rw [h0, hcv]
  simp only [Option.isSome_none, Bool.false_eq_true, if_false]
  rw [show regGet acc t = none from hacc]
  rfl

theorem bulkAttempt_dup (reg0 acc : List TaskRow) (pn bi pv : String)
    (createVm : String → Except String VmInfo) (t : String)
    (h0 : (regGet reg0 t).isSome = true) :
    bulkAttempt reg0 acc pn bi pv createVm t =
      Except.error ("Task " ++ t ++ " already exists") := by
  unfold bulkAttempt
  rw [if_pos h0]

/-- C4: bulk create settles every id independently and never
short-circuits: with B already registered and A, C fresh, A and C are
still created and registered, B is reported failed, every id receives
exactly one outcome, and the aggregate line reads "2 created, 1
failed". -/
theorem bulkCreate_settles_all (reg0 : List TaskRow) (pn bi pv : String)
    (createVm : String → Except String VmInfo) (A B C : String) (vmA vmC : VmInfo)
    (hA : regGet reg0 A = none) (hB : (regGet reg0 B).isSome = true)
    (hC : regGet reg0 C = none) (hAC : A ≠ C)
    (hcA : createVm A = Except.ok vmA) (hcC : createVm C = Except.ok vmC) :
    (∀ tasks acc,
      (bulkCreateLoop reg0 pn bi pv createVm tasks acc).1.length = tasks.length) ∧
    (bulkCreate reg0 pn bi pv createVm [A, B, C]).1 =
      [Except.ok vmA, Except.error ("Task " ++ B ++ " already exists"), Except.ok vmC] ∧
    (regGet (bulkCreate reg0 pn bi pv createVm [A, B, C]).2 A).isSome = true ∧
    (regGet (bulkCreate reg0 pn bi pv createVm [A, B, C]).2 C).isSome = true ∧
    bulkSummary (bulkCreate reg0 pn bi pv createVm [A, B, C]).1 =
      "2 created, 1 failed" := by
  have h1 := bulkAttempt_fresh reg0 reg0 pn bi pv createVm A vmA hA hA hcA
  have haccC : regGet (reg0 ++ [mkTaskRow A pn pv bi vmA]) C = none := by
    rw [regGet_append_single_ne _ _ _ (by simpa using hAC)]
    exact hC
  have h2 := bulkAttempt_dup reg0 (reg0 ++ [mkTaskRow A pn pv bi vmA]) pn bi pv
    createVm B hB
  have h3 := bulkAttempt_fresh reg0 (reg0 ++ [mkTaskRow A pn pv bi vmA]) pn bi pv
    createVm C vmC hC haccC hcC
  have hrun : bulkCreate reg0 pn bi pv createVm [A, B, C] =
      ([Except.ok vmA, Except.error ("Task " ++ B ++ " already exists"), Except.ok vmC],
        (reg0 ++ [mkTaskRow A pn pv bi vmA]) ++ [mkTaskRow C pn pv bi vmC]) := by
    unfold bulkCreate
    simp only [bulkCreateLoop, h1, h2, h3]
  refine ⟨fun tasks acc => bulkCreateLoop_length reg0 pn bi pv createVm tasks acc,
    ?_, ?_, ?_, ?_⟩
  · rw [hrun]
  · rw [hrun]
    rw [regGet_append_single_ne _ _ _ (by simpa [mkTaskRow] using (Ne.symm hAC))]
    rw [show regGet (reg0 ++ [mkTaskRow A pn pv bi vmA]) A =
      some (mkTaskRow A pn pv bi vmA) from regGet_append_single_self reg0 _ hA]
    rfl
  · rw [hrun]
    rw [show regGet ((reg0 ++ [mkTaskRow A pn pv bi vmA]) ++ [mkTaskRow C pn pv bi vmC]) C =
      some (mkTaskRow C pn pv bi vmC) from regGet_append_single_self _ _ haccC]
    rfl
  · rw [hrun]
    simp only [bulkSummary, List.filter, Except.isOk, Except.toBool, Bool.not_true,
      Bool.not_false, List.length_cons, List.length_nil]
    rfl

/-! ### exec.ts and the provider availability probes -/

/-- Host state behind `exec` in `src/exec.ts`: the platform string and
the outcome of each external tool invocation (stdout on exit 0, the
diagnostic text otherwise). -/
structure HostEnv where
  platform : String
  run : String → List String → Except String String

/-- Translated from `exec` in `src/exec.ts`: resolves with stdout,
rejects on non-zero exit. -/
def hexec (env : HostEnv) (cmd : String) (args : List String) : Except String String :=
  env.run cmd args

/-- Translated from `execOk` in `src/exec.ts`: catches any rejection
of `exec` and returns a plain boolean — it never throws. -/
def execOk (env : HostEnv) (cmd : String) (args : List String) : Bool :=
  match hexec env cmd args with
  | Except.ok _ => true
  | Except.error _ => false

/-- Translated from `available` in `src/providers/macos-native.ts`:
false off darwin, otherwise whether swiftc runs. -/
def availableMac (env : HostEnv) : Except String Bool :=
  if env.platform ≠ "darwin" then Except.ok false
  else Except.ok (execOk env "swiftc" ["--version"])

/-- Translated from `available` in `src/providers/kvm.ts`: false off
linux or when any of virsh / virt-install / qemu-img is missing,
otherwise whether the default libvirt network exists. -/
def availableKvm (env : HostEnv) : Except String Bool :=
  if env.platform ≠ "linux" then Except.ok false
  else
    let hasVirsh := execOk env "virsh" ["--version"]
    let hasVirtInstall := execOk env "virt-install" ["--version"]
    let hasQemuImg := execOk env "qemu-img" ["--version"]
    if !hasVirsh || !hasVirtInstall || !hasQemuImg then Except.ok false
    else Except.ok (execOk env "virsh" ["net-info", "default"])

/-- Translated from `available` in `src/providers/hyperv.ts`: false
off win32; the PowerShell probe sits in a try/catch whose catch
returns false, so a failing probe never escapes. -/
def availableHyperv (env : HostEnv) : Except String Bool :=
  if env.platform ≠ "win32" then Except.ok false
  else
    match hexec env "powershell.exe"
        ["-NoProfile", "-NonInteractive", "-Command",
         "Get-Command Get-VM -ErrorAction Stop"] with
    | Except.ok _ => Except.ok true
    | Except.error _ => Except.ok false

/-- C9: the `available` probe of no provider ever throws — each returns a plain
boolean for every host state — and each returns false (not an error)
on a wrong platform or when its probe command fails. -/
theorem available_never_throws (env : HostEnv) :
    (∃ b, availableMac env = Except.ok b) ∧
    (∃ b, availableKvm env = Except.ok b) ∧
    (∃ b, availableHyperv env = Except.ok b) ∧
    (env.platform ≠ "darwin" → availableMac env = Except.ok false) ∧
    (env.platform = "darwin" → execOk env "swiftc" ["--version"] = false →
      availableMac env = Except.ok false) ∧
    (env.platform = "linux" → execOk env "virsh" ["--version"] = false →
      availableKvm env = Except.ok false) ∧
    (∀ e, env.platform = "win32" →
      hexec env "powershell.exe"
        ["-NoProfile", "-NonInteractive", "-Command",
         "Get-Command Get-VM -ErrorAction Stop"] = Except.error e →
      availableHyperv env = Except.ok false) := by
  refine ⟨?_, ?_, ?_, ?_, ?_, ?_, ?_⟩
  · unfold availableMac
    by_cases hp : env.platform = "darwin"
    · rw [if_neg (by simp [hp])]
      exact ⟨_, rfl⟩
    · rw [if_pos hp]
      exact ⟨_, rfl⟩
  · unfold availableKvm
    by_cases hp : env.platform = "linux"
    · rw [if_neg (by simp [hp])]
      simp only []
      by_cases hc : (!execOk env "virsh" ["--version"] ||
          !execOk env "virt-install" ["--version"] ||
          !execOk env "qemu-img" ["--version"]) = true
      · rw [if_pos hc]
        exact ⟨_, rfl⟩
      · rw [if_neg hc]
        exact ⟨_, rfl⟩
    · rw [if_pos hp]
      exact ⟨_, rfl⟩
  · unfold availableHyperv
    by_cases hp : env.platform = "win32"
    · rw [if_neg (by simp [hp])]
      cases hexec env "powershell.exe"
          ["-NoProfile", "-NonInteractive", "-Command",
           "Get-Command Get-VM -ErrorAction Stop"] with
      | ok s => exact ⟨_, rfl⟩
      | error e => exact ⟨_, rfl⟩
    · rw [if_pos hp]
      exact ⟨_, rfl⟩
  · intro hp
    unfold availableMac
    rw [if_pos hp]
  · intro hp hsw
    unfold availableMac
    rw [if_neg (by simp [hp]), hsw]
  · intro hp hv
    unfold availableKvm
    rw [if_neg (by simp [hp])]
    simp [hv]
  · intro e hp hps
    unfold availableHyperv
    rw [if_neg (by simp [hp]), hps]

/-! ### IP acquisition polling (waitForIp, macos-native) -/

/-- One probe of the loop body of `waitForIp` in
`src/providers/macos-native.ts`: the k-th `vm-helper ip` call either
rejects — caught, not ready yet — or resolves; an empty stdout is
falsy and also treated as not ready. -/
def ipProbeHit (probe : Nat → Except String String) (k : Nat) : Option String :=
  match probe k with
  | Except.error _ => none
  | Except.ok ip => if ip = "" then none else some ip

/-- Translated from `waitForIp`: poll every ~3s until the 90s deadline
(30 iterations of fuel), returning null — not throwing — on
exhaustion. -/
def waitForIpLoop (probe : Nat → Except String String) : Nat → Nat → Option String
  | _, 0 => none
  | k, fuel + 1 =>
    match ipProbeHit probe k with
    | some ip => some ip
    | none => waitForIpLoop probe (k + 1) fuel

def waitForIp (probe : Nat → Except String String) : Option String :=
  waitForIpLoop probe 0 30

theorem waitForIpLoop_exhaust (probe : Nat → Except String String)
    (hp : ∀ k, ipProbeHit probe k = none) :
    ∀ fuel k, waitForIpLoop probe k fuel = none := by
  intro fuel
  induction fuel with
  | zero => intro k; rfl
  | succ n ih =>
    intro k
    unfold waitForIpLoop
    rw [hp k]
    exact ih (k + 1)

/-- Host-state parameters of the macOS `createVm`
(`src/providers/macos-native.ts`): the clone step (`cp -c`), the
per-branch setup (disk resize plus cloud-init ISO for a project;
cidata copy plus project-config MAC reuse for a task clone), and the
IP probes.  The SSH and first-boot provisioning waits that follow a
successful IP acquisition swallow their errors and their boolean
results are discarded, so they cannot affect the returned value and
are elided. -/
structure MacCreateEnv where
  vmsDir : String
  cloneOk : Except String String
  projectSetupOk : Except String Unit
  taskSetupOk : Except String Unit
  ipProbe : Nat → Except String String

/-- Translated from `createVm` in `src/providers/macos-native.ts.`
A task clone is detected by the source path living under VMS_DIR
(`baseImage.startsWith(VMS_DIR)`, expressed over the character lists
so that it evaluates); after the clone and branch setup the VM is
spawned detached and the call blocks on `waitForIp`, embedding
whatever that returns — null included — into the reported VmInfo with
status running. -/
def createVmMac (env : MacCreateEnv) (task baseImage : String) : Except String VmInfo :=
  let isTaskClone := env.vmsDir.data.isPrefixOf baseImage.data
  let name := if isTaskClone then "agent-swarm-" ++ task else "project-" ++ task
  match env.cloneOk with
  | Except.error e => Except.error e
  | Except.ok _ =>
    match (if isTaskClone then env.taskSetupOk else env.projectSetupOk) with
    | Except.error e => Except.error e
    | Except.ok _ =>
      let ip := waitForIp env.ipProbe
      Except.ok { vmId := name, task := task, ip := ip, status := "running" }

/-- C8: when every IP probe of the bounded polling loop fails, the
loop returns null and `createVm` returns a VmInfo whose ip is null —
exhaustion is a degraded result, not an error. -/
theorem createVm_ip_timeout_not_error (env : MacCreateEnv) (task baseImage : String)
    (hclone : env.cloneOk.isOk = true)
    (hproj : env.projectSetupOk.isOk = true)
    (htask : env.taskSetupOk.isOk = true)
    (hprobe : ∀ k, ipProbeHit env.ipProbe k = none) :
    waitForIp env.ipProbe = none ∧
    createVmMac env task baseImage = Except.ok
      { vmId := (if env.vmsDir.data.isPrefixOf baseImage.data then "agent-swarm-" ++ task
                 else "project-" ++ task),
        task := task, ip := none, status := "running" } := by
  have hwait : waitForIp env.ipProbe = none :=
    waitForIpLoop_exhaust env.ipProbe hprobe 30 0
  refine ⟨hwait, ?_⟩
  unfold createVmMac
  cases hcl : env.cloneOk with
  | error e => rw [hcl] at hclone; cases hclone
  | ok s =>
    by_cases hbr : env.vmsDir.data.isPrefixOf baseImage.data
    · cases hts : env.taskSetupOk with
      | error e => rw [hts] at htask; cases htask
      | ok u =>
        simp only [hbr, if_true, hts, hwait]
    · cases hps : env.projectSetupOk with
      | error e => rw [hps] at hproj; cases hproj
      | ok u =>
        simp only [hbr, Bool.false_eq_true, if_false, hps, hwait]

/-! ### stopVm (claim C6): vm-helper cmdStop, macos-native, kvm -/

/-- Host state seen by the vm-helper `stop` command
(`src/vm-helper/main.swift`): the pid file content of the VM (none when
absent) and, for each `kill(pid, 0)` liveness check, whether the
process is still alive — index 0 is the check before SIGTERM, index
k+1 the k-th poll of the shutdown wait loop. -/
structure MacVmHost where
  pidFile : Option Nat
  alive : Nat → Bool

inductive StopSignal where
  | sigterm
  | sigkill
deriving DecidableEq, Repr

/-- Translated from `cmdStop` in `src/vm-helper/main.swift`: a missing
pid file prints "No PID file" and exits 1; a dead process cleans the
pid file up and returns; otherwise SIGTERM is sent, the process is
polled up to 20 times at 0.5s (10s) and, if still alive, SIGKILL is
sent.  The success value lists the signals sent in order. -/
def cmdStopHelper (h : MacVmHost) : Except String (List StopSignal) :=
  match h.pidFile with
  | none => Except.error "No PID file"
  | some _ =>
    if h.alive 0 = false then Except.ok []
    else
      match (List.range 20).find? (fun k => !h.alive (k + 1)) with
      | some _ => Except.ok [StopSignal.sigterm]
      | none => Except.ok [StopSignal.sigterm, StopSignal.sigkill]

/-- Translated from `stopVm` in `src/providers/macos-native.ts`:
`await vmHelper(stop, vmId)` — `exec` rejects when the helper exits
non-zero, so the helper's missing-pid-file exit(1) propagates as a
thrown error. -/
def stopVmMac (h : MacVmHost) : Except String (List StopSignal) :=
  cmdStopHelper h

/-- Host state for the KVM stop and checkpoint paths: the outcome of
`virsh shutdown`, the successive `virsh domstate` poll results, and
the outcome of `virsh destroy` (the latter is swallowed by its
try/catch and cannot influence anything observable, so it is
elided). -/
structure KvmHost where
  shutdownOk : Except String Unit
  domstate : Nat → Except String String

inductive KvmCall where
  | shutdown
  | domstate
  | destroy
deriving DecidableEq, Repr

/-- The graceful-shutdown wait loop shared by `stopVm`, `checkpoint`
and `restore` in `src/providers/kvm.ts`: up to 15 polls at 2s (30s).
Returns the domstate calls made and whether `shut off` was observed; a
throwing poll aborts the enclosing try block, which behaves like a
timeout. -/
def kvmStopLoop (h : KvmHost) : Nat → Nat → List KvmCall × Bool
  | _, 0 => ([], false)
  | k, fuel + 1 =>
    match h.domstate k with
    | Except.error _ => ([KvmCall.domstate], false)
    | Except.ok s =>
      if s.trim = "shut off" then ([KvmCall.domstate], true)
      else
        let r := kvmStopLoop h (k + 1) fuel
        (KvmCall.domstate :: r.1, r.2)

/-- Translated from `stopVm` in `src/providers/kvm.ts`: try a graceful
`virsh shutdown` and wait up to 30s, returning as soon as the domain
reports shut off; on a thrown step or on timeout fall back to
`virsh destroy`, itself inside a try/catch — so the call never
throws.  The success value lists the virsh calls issued in order. -/
def stopVmKvm (h : KvmHost) : Except String (List KvmCall) :=
  match h.shutdownOk with
  | Except.error _ => Except.ok [KvmCall.shutdown, KvmCall.destroy]
  | Except.ok _ =>
    let r := kvmStopLoop h 0 15
    if r.2 then Except.ok (KvmCall.shutdown :: r.1)
    else Except.ok ((KvmCall.shutdown :: r.1) ++ [KvmCall.destroy])

/-- The PowerShell script text of `stopVm` in `src/providers/hyperv.ts`
line 211; the source wraps the VM name in single quotes, elided here
because only the script being the same function of `vmId` on both
sides matters below. -/
def psStopScript (vmId : String) : String :=
  "Stop-VM -Name " ++ vmId ++ " -Force"

/-- Translated from `stopVm` in `src/providers/hyperv.ts` lines
210-212: a single awaited `ps(...)` call, where `ps` (line 27) is
`exec(powershell.exe, [-NoProfile, -NonInteractive, -Command, script])`
with no try/catch anywhere on the path, so the outcome of the lone
Stop-VM -Force cmdlet propagates unchanged. -/
def stopVmHyperv (env : HostEnv) (vmId : String) : Except String Unit :=
  match hexec env "powershell.exe"
      ["-NoProfile", "-NonInteractive", "-Command", psStopScript vmId] with
  | Except.ok _ => Except.ok ()
  | Except.error e => Except.error e

/-- C6 counterexample: stopping a VM whose pid file is absent — the
state every cleanly stopped VM is left in, since `cmdStop` removes the
pid file — makes `stopVm` throw on macos-native: stop is not
idempotent there. -/
theorem stopVm_already_stopped_errors :
    stopVmMac { pidFile := none, alive := fun _ => false } =
      Except.error "No PID file" := rfl

/-- C6 amended: on macos-native and kvm, stop attempts graceful
shutdown first and falls back to forceful termination only after a
bounded wait (SIGTERM, then SIGKILL after 20 polls, on macos-native;
virsh shutdown, then destroy after the 30s wait, on kvm); kvm never
throws, and the macos-native helper treats a live pid file with a dead
process as already stopped — but a missing pid file is an error on
macos-native (see the counterexample), so idempotence fails there.
The hyperv variant delegates both phases to the single cmdlet
Stop-VM -Force: the engine does no waiting of its own and wraps the
call in no catch, so the last two conjuncts show success and failure
of that one PowerShell invocation propagating unchanged — any
graceful-then-forceful sequencing and any idempotence on hyperv are
properties of the external cmdlet, not of this code. -/
theorem stopVm_graceful_then_forceful :
    (∀ h : MacVmHost, ∀ p, h.pidFile = some p → h.alive 0 = true →
      ((∃ k, k < 20 ∧ h.alive (k + 1) = false) →
        stopVmMac h = Except.ok [StopSignal.sigterm]) ∧
      ((∀ k, k < 20 → h.alive (k + 1) = true) →
        stopVmMac h = Except.ok [StopSignal.sigterm, StopSignal.sigkill])) ∧
    (∀ h : MacVmHost, ∀ p, h.pidFile = some p → h.alive 0 = false →
      stopVmMac h = Except.ok []) ∧
    (∀ h : MacVmHost, h.pidFile = none → stopVmMac h = Except.error "No PID file") ∧
    (∀ h : KvmHost, ∃ tr, stopVmKvm h = Except.ok tr ∧
      tr.head? = some KvmCall.shutdown) ∧
    (∀ h : KvmHost, h.shutdownOk = Except.ok () → (kvmStopLoop h 0 15).2 = true →
      stopVmKvm h = Except.ok (KvmCall.shutdown :: (kvmStopLoop h 0 15).1) ∧
      KvmCall.destroy ∉ KvmCall.shutdown :: (kvmStopLoop h 0 15).1) ∧
    (∀ h : KvmHost, h.shutdownOk = Except.ok () → (kvmStopLoop h 0 15).2 = false →
      stopVmKvm h =
        Except.ok ((KvmCall.shutdown :: (kvmStopLoop h 0 15).1) ++ [KvmCall.destroy])) ∧
    (∀ env : HostEnv, ∀ vmId out,
      env.run "powershell.exe"
        ["-NoProfile", "-NonInteractive", "-Command", psStopScript vmId] =
        Except.ok out →
      stopVmHyperv env vmId = Except.ok ()) ∧
    (∀ env : HostEnv, ∀ vmId e,
      env.run "powershell.exe"
        ["-NoProfile", "-NonInteractive", "-Command", psStopScript vmId] =
        Except.error e →
      stopVmHyperv env vmId = Except.error e) := by
  refine ⟨?_, ?_, ?_, ?_, ?_, ?_, ?_, ?_⟩
  · intro h p hpid halive
    constructor
    · intro ⟨k, hk, hdead⟩
      unfold stopVmMac cmdStopHelper
      rw [hpid]
      rw [if_neg (by simp [halive])]
      have hfind : ((List.range 20).find? (fun k => !h.alive (k + 1))).isSome = true := by
        rw [List.find?_isSome]
        exact ⟨k, List.mem_range.mpr hk, by simp [hdead]⟩
      cases hf : (List.range 20).find? (fun k => !h.alive (k + 1)) with
      | some m => rfl
      | none => rw [hf] at hfind; cases hfind
    · intro hall
      unfold stopVmMac cmdStopHelper
      rw [hpid]
      rw [if_neg (by simp [halive])]
      have hfind : (List.range 20).find? (fun k => !h.alive (k + 1)) = none := by
        rw [List.find?_eq_none]
        intro k hk
        simp [hall k (List.mem_range.mp hk)]
      rw [hfind]
  · intro h p hpid hdead
    unfold stopVmMac cmdStopHelper
    rw [hpid, if_pos hdead]
  · intro h hpid
    unfold stopVmMac cmdStopHelper
    rw [hpid]
  · intro h
    unfold stopVmKvm
    cases h.shutdownOk with
    | error e => exact ⟨_, rfl, rfl⟩
    | ok u =>
      simp only []
      by_cases hr : (kvmStopLoop h 0 15).2 = true
      · rw [if_pos hr]
        exact ⟨_, rfl, rfl⟩
      · rw [if_neg hr]
        exact ⟨_, rfl, rfl⟩
  · intro h hok hloop
    have hdnotin : ∀ k fuel, KvmCall.destroy ∉ (kvmStopLoop h k fuel).1 := by
      intro k fuel
      induction fuel generalizing k with
      | zero => simp [kvmStopLoop]
      | succ n ih =>
        unfold kvmStopLoop
        cases h.domstate k with
        | error e => simp
        | ok s =>
          by_cases hs : s.trim = "shut off"
          · simp [hs]
          · simp only [hs, if_false]
            simp only [List.mem_cons, not_or]
            exact ⟨by simp, ih (k + 1)⟩
    constructor
    · unfold stopVmKvm
      rw [hok]
      simp only []
      rw [if_pos hloop]
    · simp only [List.mem_cons, not_or]
      exact ⟨by simp, hdnotin 0 15⟩
  · intro h hok hloop
    unfold stopVmKvm
    rw [hok]
    simp only []
    rw [if_neg (by simp [hloop])]
  · intro env vmId out hrun
    unfold stopVmHyperv hexec
    rw [hrun]
  · intro env vmId e hrun
    unfold stopVmHyperv hexec
    rw [hrun]

/-! ### checkpoint (claim C7): quiesce-then-snapshot policy -/

/-- Externally observable provider actions during a checkpoint. -/
inductive ProvAct where
  | helperStop (vmId : String)
  | virshShutdown (vmId : String)
  | virshDomstate (vmId : String)
  | copyFile (src dst : String)
  | psCheckpointVm (vmId name : String)
  | startCall (vmId : String)
deriving DecidableEq, Repr

/-- Whether an action stops or shuts a VM down. -/
def isStopAct : ProvAct → Bool
  | ProvAct.helperStop _ => true
  | ProvAct.virshShutdown _ => true
  | _ => false

/-- Whether an action starts a VM. -/
def isStartAct : ProvAct → Bool
  | ProvAct.startCall _ => true
  | _ => false

/-- Translated from `checkpoint` in `src/providers/macos-native.ts`:
stop the VM first (errors swallowed), make the snapshot directory,
then APFS-clone the disk into SNAPSHOTS_DIR/vmId/name.img.  Paths are
shown relative to the elided SWARM_DIR roots. -/
def checkpointMac (vmId name : String) : List ProvAct :=
  [ProvAct.helperStop vmId,
   ProvAct.copyFile (vmId ++ "/disk.img") (vmId ++ "/" ++ name ++ ".img")]

/-- Translated from `checkpoint` in `src/providers/kvm.ts`: try
`virsh shutdown` and wait for shut off up to 30s (errors swallowed),
then reflink-copy the disk into the snapshot directory. -/
def checkpointKvm (h : KvmHost) (vmId name : String) : List ProvAct :=
  (match h.shutdownOk with
   | Except.error _ => [ProvAct.virshShutdown vmId]
   | Except.ok _ =>
     ProvAct.virshShutdown vmId ::
       (kvmStopLoop h 0 15).1.map (fun _ => ProvAct.virshDomstate vmId)) ++
  [ProvAct.copyFile (vmId ++ "/disk.qcow2") (vmId ++ "/" ++ name ++ ".qcow2")]

/-- Translated from `checkpoint` in `src/providers/hyperv.ts`: a
single `Checkpoint-VM` PowerShell call, with no stop of any kind
before it — Hyper-V checkpoints the VM live. -/
def checkpointHyperv (vmId name : String) : List ProvAct :=
  [ProvAct.psCheckpointVm vmId name]

/-- C7 counterexample: on Hyper-V, checkpoint issues no stop or
shutdown action at all — it snapshots the (possibly running) VM
directly, contradicting the claim that every variant stops the VM
first. -/
theorem hyperv_checkpoint_snapshots_live :
    checkpointHyperv "agent-swarm-t1" "pre-refactor" =
      [ProvAct.psCheckpointVm "agent-swarm-t1" "pre-refactor"] ∧
    (checkpointHyperv "agent-swarm-t1" "pre-refactor").all
      (fun a => !isStopAct a) = true := ⟨rfl, rfl⟩

/-- C7 amended: macos-native and kvm follow quiesce-then-snapshot —
the checkpoint trace opens with a stop/shutdown, ends with the disk
copy, and contains no start action (the VM is resumed only by a later
explicit startVm) — while the Hyper-V variant calls Checkpoint-VM
directly without stopping the VM first. -/
theorem checkpoint_quiesce_policy :
    (∀ vmId name, (checkpointMac vmId name).head? = some (ProvAct.helperStop vmId) ∧
      (checkpointMac vmId name).getLast? =
        some (ProvAct.copyFile (vmId ++ "/disk.img") (vmId ++ "/" ++ name ++ ".img")) ∧
      ∀ a ∈ checkpointMac vmId name, isStartAct a = false) ∧
    (∀ h vmId name, (checkpointKvm h vmId name).head? =
        some (ProvAct.virshShutdown vmId) ∧
      (checkpointKvm h vmId name).getLast? =
        some (ProvAct.copyFile (vmId ++ "/disk.qcow2") (vmId ++ "/" ++ name ++ ".qcow2")) ∧
      ∀ a ∈ checkpointKvm h vmId name, isStartAct a = false) ∧
    (∀ vmId name, checkpointHyperv vmId name = [ProvAct.psCheckpointVm vmId name] ∧
      ∀ a ∈ checkpointHyperv vmId name, isStopAct a = false) := by
  refine ⟨?_, ?_, ?_⟩
  · intro vmId name
    refine ⟨rfl, rfl, ?_⟩
    intro a ha
    simp only [checkpointMac, List.mem_cons, List.not_mem_nil, or_false] at ha
    rcases ha with ha | ha <;> simp [ha, isStartAct]
  · intro h vmId name
    refine ⟨?_, ?_, ?_⟩
    · unfold checkpointKvm
      cases h.shutdownOk <;> rfl
    · unfold checkpointKvm
      cases h.shutdownOk with
      | error e => rfl
      | ok u =>
        simp only []
        rw [List.getLast?_concat]
    · intro a ha
      unfold checkpointKvm at ha
      cases hsd : h.shutdownOk with
      | error e =>
        simp only [hsd, List.mem_append, List.mem_cons, List.not_mem_nil,
          or_false] at ha
        rcases ha with ha | ha <;> simp [ha, isStartAct]
      | ok u =>
        simp only [hsd, List.cons_append, List.mem_cons, List.mem_append,
          List.mem_map] at ha
        rcases ha with ha | ha | ha
        · simp [ha, isStartAct]
        · obtain ⟨b, hb, hba⟩ := ha
          simp [← hba, isStartAct]
        · simp only [List.mem_cons, List.not_mem_nil, or_false] at ha
          simp [ha, isStartAct]
  · intro vmId name
    refine ⟨rfl, ?_⟩
    intro a ha
    simp only [checkpointHyperv, List.mem_cons, List.not_mem_nil, or_false] at ha
    simp [ha, isStopAct]

/-! ### Concrete instances for evaluating the theorems -/

/-- A concrete, executable GCM instance: zero keystream, and a tag
embedding (nonce, ciphertext) reduced mod 256 and padded/truncated to
16 bytes — so single-byte alterations of short records change the
tag. -/
def gW : GcmModel :=
  { pad := fun _ _ _ => 0,
    tag := fun _ iv2 ct2 => ((iv2 ++ ct2).map (· % 256) ++ List.replicate 16 0).take 16 }

def ivW : List Nat := List.replicate 12 0

theorem gW_tag_length : ∀ k i c, (gW.tag k i c).length = 16 := by
  intro k i c
  simp only [gW, List.length_take, List.length_append, List.length_map,
    List.length_replicate]
  omega

theorem gW_tag_bytes : ∀ k i c, ∀ b ∈ gW.tag k i c, b < 256 := by
  intro k i c b hb
  simp only [gW] at hb
  have hb2 := List.mem_of_mem_take hb
  rw [List.mem_append] at hb2
  rcases hb2 with hb2 | hb2
  · obtain ⟨a, _, ha⟩ := List.mem_map.mp hb2
    omega
  · have := List.eq_of_mem_replicate hb2
    omega

theorem map_mod_id (l : List Nat) (h : ∀ b ∈ l, b < 256) : l.map (· % 256) = l := by
  induction l with
  | nil => rfl
  | cons a rest ih =>
    simp only [List.map_cons, Nat.mod_eq_of_lt (h a (by simp)),
      ih (fun b hb => h b (by simp [hb])), List.cons.injEq, and_self]

theorem take16_of_len13 (l : List Nat) (hl : l.length = 13) :
    (l ++ List.replicate 16 0).take 16 = l ++ List.replicate 3 0 := by
  rw [List.take_append_eq_append_take, List.take_of_length_le (by omega), hl,
    List.take_replicate]
  norm_num

/-- The tag of `gW` separates the record (ivW, [7]) from every other
(nonce, ciphertext) pair of the same lengths with byte entries: the
discharge of the authentication hypothesis at the concrete record. -/
theorem gW_detect : ∀ iv2 ct2 : List Nat, iv2.length = 12 →
    ct2.length = ([7] : List Nat).length →
    (∀ b ∈ iv2, b < 256) → (∀ b ∈ ct2, b < 256) →
    (iv2, ct2) ≠ (ivW, [7]) → gW.tag [] iv2 ct2 ≠ gW.tag [] ivW [7] := by
  intro iv2 ct2 h12 h1 hbi hbc hne heq
  apply hne
  simp only [gW] at heq
  rw [map_mod_id _ (fun b hb => (List.mem_append.mp hb).elim (hbi b) (hbc b)),
    map_mod_id _ (by decide)] at heq
  rw [take16_of_len13 _ (by simp [h12, h1]),
    take16_of_len13 _ (by simp [ivW])] at heq
  have heq2 : iv2 ++ ct2 = ivW ++ [7] := by
    have := List.append_inj heq (by simp [h12, h1, ivW])
    exact this.1
  have := List.append_inj heq2 (by simp [h12, ivW])
  rw [this.1, this.2]

def tgW : List Nat := gW.tag [] ivW [7]

/-- The env_var table of the claim C1 / C10 example: global A = "1"
(byte 49), B = "2" (50); project-scoped B = "9" (57), C = "3" (51),
each stored encrypted. -/
def tableW : List EnvVarRow :=
  [{ name := "A", scope := "", value := encrypt gW [49] [] ivW },
   { name := "B", scope := "", value := encrypt gW [50] [] ivW },
   { name := "B", scope := "p", value := encrypt gW [57] [] ivW },
   { name := "C", scope := "p", value := encrypt gW [51] [] ivW }]

/-- A registry holding one secret whose stored record had byte 12 (the
single ciphertext byte) flipped from 7 to 8. -/
def tableT : List EnvVarRow :=
  [{ name := "API", scope := "", value := b64Encode ((ivW ++ [7] ++ tgW).set 12 8) }]

/-- A registry holding one secret whose stored 29-byte record was
truncated to its first 20 bytes. -/
def tableTr : List EnvVarRow :=
  [{ name := "API", scope := "", value := b64Encode ((ivW ++ [7] ++ tgW).take 20) }]

def vmW (t : String) : VmInfo :=
  { vmId := "vm-" ++ t, task := t, ip := none, status := "running" }

def regW : List TaskRow := [mkTaskRow "b" "proj" "macos-native" "/img" (vmW "b")]

def projW : ProjectRow :=
  { name := "p", provider := "macos-native", vm_id := "project-p",
    base_image := "/img", ip := none, status := "stopped" }

def taskRefW : TaskRow := mkTaskRow "t1" "p" "macos-native" "/img" (vmW "t1")

/-- A Hyper-V host whose every external call succeeds with empty
stdout. -/
def hostHvW : HostEnv :=
  { platform := "win32", run := fun _ _ => Except.ok "" }

/-- A Hyper-V host whose every external call fails. -/
def hostHvFailW : HostEnv :=
  { platform := "win32", run := fun _ _ => Except.error "Stop-VM failed" }

def envTimeoutW : MacCreateEnv :=
  { vmsDir := "/vms", cloneOk := Except.ok "", projectSetupOk := Except.ok (),
    taskSetupOk := Except.ok (), ipProbe := fun _ => Except.error "not ready" }

/-! ### Witnesses -/

theorem decrypt_encrypt_witness :
    (∀ b ∈ ([104, 105] : List Nat), b < 256) ∧
    decrypt gW (encrypt gW [104, 105] [] ivW) [] = Except.ok [104, 105] :=
  ⟨by decide,
   decrypt_encrypt gW [104, 105] [] ivW (by decide) (by decide) (by decide)
     (fun _ => by show (0 : Nat) < 256; decide) gW_tag_length gW_tag_bytes⟩

theorem resolve_merges_scopes_witness :
    envVarPK tableW ∧
    (∃ env, resolve gW [] tableW "p" = Except.ok env ∧
      ∀ n, recordGet env n = specMerge gW [] tableW "p" n) :=
  ⟨by decide, resolve_merges_scopes gW [] tableW "p" (by decide) (by decide)⟩

theorem resolve_empty_project_witness :
    envVarPK tableW ∧
    (∃ env, resolve gW [] tableW "" = Except.ok env ∧
      decryptPass gW [] (listEnvVarsByScope tableW "") [] = Except.ok env ∧
      ∀ n, recordGet env n =
        match getEnvVar tableW n "" with
        | some c => (decrypt gW c []).toOption
        | none => none) :=
  ⟨by decide, resolve_empty_project gW [] tableW (by decide) (by decide)⟩

theorem get_tampered_fails_witness :
    tgW.length = 16 ∧
    sGet gW [] tableT "API" none =
      Except.error "Unsupported state or unable to authenticate data" ∧
    sGet gW [] tableTr "API" none =
      Except.error "Unsupported state or unable to authenticate data" := by
  have h := get_tampered_fails gW [7] [] ivW [7] tgW
    (by decide) rfl (by decide) (by decide) (by decide)
    (fun _ => by show (0 : Nat) < 256; decide) (by decide) (by decide)
  refine ⟨by decide, ?_, ?_⟩
  · exact h.1 tableT "API" none 12 8 (by decide) (by decide) (by decide) rfl gW_detect
  · exact h.2 tableTr "API" none 20 (by decide) (by decide) rfl (by decide)

theorem bulkCreate_settles_all_witness :
    (bulkCreate regW "proj" "/img" "macos-native" (fun t => Except.ok (vmW t))
      ["a", "b", "c"]).1 =
      [Except.ok (vmW "a"), Except.error "Task b already exists", Except.ok (vmW "c")] ∧
    bulkSummary (bulkCreate regW "proj" "/img" "macos-native" (fun t => Except.ok (vmW t))
      ["a", "b", "c"]).1 = "2 created, 1 failed" := by
  have h := bulkCreate_settles_all regW "proj" "/img" "macos-native"
    (fun t => Except.ok (vmW t)) "a" "b" "c" (vmW "a") (vmW "c")
    (by decide) (by decide) (by decide) (by decide) rfl rfl
  exact ⟨h.2.1, h.2.2.2.2⟩

theorem project_delete_guard_witness :
    cmdProjectDelete [projW] [taskRefW] (fun _ => Except.ok ()) "p" =
      (Except.error "Project p still has 1 task(s): t1. Delete them first.", []) ∧
    cmdProjectDelete [projW] [] (fun _ => Except.ok ()) "p" =
      (Except.ok (removeProject [projW] "p"), ["project-p"]) ∧
    getProjectRow (removeProject [projW] "p") "p" = none := by
  have h1 := (project_delete_guard [projW] [taskRefW] (fun _ => Except.ok ()) "p").1
    (by decide)
  have h2 := (project_delete_guard [projW] [] (fun _ => Except.ok ()) "p").2
    (by decide) projW rfl rfl
  exact ⟨h1, h2.1, h2.2.1⟩

theorem stopVm_graceful_then_forceful_witness :
    stopVmMac { pidFile := some 3, alive := fun k => decide (k = 0) } =
      Except.ok [StopSignal.sigterm] ∧
    stopVmMac { pidFile := some 3, alive := fun _ => false } = Except.ok [] ∧
    stopVmMac { pidFile := none, alive := fun _ => false } =
      Except.error "No PID file" ∧
    stopVmHyperv hostHvW "agent-swarm-t1" = Except.ok () ∧
    stopVmHyperv hostHvFailW "agent-swarm-t1" = Except.error "Stop-VM failed" := by
  have h := stopVm_graceful_then_forceful
  refine ⟨?_, h.2.1 _ 3 rfl rfl, h.2.2.1 _ rfl,
    h.2.2.2.2.2.2.1 hostHvW "agent-swarm-t1" "" rfl,
    h.2.2.2.2.2.2.2 hostHvFailW "agent-swarm-t1" "Stop-VM failed" rfl⟩
  exact (h.1 _ 3 rfl rfl).1 ⟨0, by omega, rfl⟩

theorem checkpoint_quiesce_policy_witness :
    (checkpointMac "agent-swarm-t1" "snap").head? =
      some (ProvAct.helperStop "agent-swarm-t1") ∧
    checkpointHyperv "agent-swarm-t1" "snap" =
      [ProvAct.psCheckpointVm "agent-swarm-t1" "snap"] := by
  have h := checkpoint_quiesce_policy
  exact ⟨(h.1 "agent-swarm-t1" "snap").1, (h.2.2 "agent-swarm-t1" "snap").1⟩

theorem createVm_ip_timeout_witness :
    waitForIp (fun _ => Except.error "not ready") = none ∧
    createVmMac envTimeoutW "t1" "/base/ubuntu.img" = Except.ok
      { vmId := "project-t1", task := "t1", ip := none, status := "running" } := by
  have h := createVm_ip_timeout_not_error envTimeoutW "t1" "/base/ubuntu.img"
    rfl rfl rfl (fun _ => rfl)
  refine ⟨h.1, ?_⟩
  rw [h.2]
  have hsw : envTimeoutW.vmsDir.data.isPrefixOf "/base/ubuntu.img".data = false := by decide
  rw [hsw]
  rfl

theorem available_never_throws_witness :
    availableMac { platform := "linux", run := fun _ _ => Except.error "missing" } =
      Except.ok false ∧
    availableHyperv { platform := "win32", run := fun _ _ => Except.error "missing" } =
      Except.ok false := by
  refine ⟨?_, ?_⟩
  · exact (available_never_throws
      { platform := "linux", run := fun _ _ => Except.error "missing" }).2.2.2.1
      (by decide)
  · exact (available_never_throws
      { platform := "win32", run := fun _ _ => Except.error "missing" }).2.2.2.2.2.2
      "missing" rfl rfl

end AgentSwarm
